import Mathlib

/-!
Verification development for `tcp_server_setcom.py`, a TCP/HTTP voltage-control
bridge.  The definitions below are a shallow embedding of the program:

* the ramp planner (`_ease_sample_sequence` and the planning prefix of
  `_ramp_runner`) is embedded as pure functions over a linear ordered field
  (`ℚ` for the configured linear smoothing; `ℝ` for the cosine easing, which
  uses `math.cos`);
* Python's `round` builtin (round-half-to-even) is embedded as `pyRound`;
* the dispatcher `run_setcom`, the invoker `_start_proc_and_wait`, the HTTP
  handler `do_POST` and the SQLite queue are embedded as state-passing
  functions; the externally visible side effects (cancelling a ramp, killing
  the in-flight child, invoking the device tool, spawning a ramp thread) are
  recorded in an explicit action trace;
* the TCP line framing of `handle_client` is embedded over byte lists, with
  Python's `bytes.partition` and `.decode('utf-8', errors='ignore')` modelled
  byte for byte.

Machine integers do not occur (Python integers are unbounded), so `ℤ`/`ℕ` are
used directly; float arithmetic of the source is embedded as exact field
arithmetic.
-/

namespace SetcomServer

/-! ### Configuration constants (CONFIG section of the source) -/

/-- `SUBPROCESS_TIMEOUT = 60` (seconds), timeout for any individual SetCom call. -/
def SUBPROCESS_TIMEOUT : ℚ := 60

/-- `RAMP_SMOOTHING = "linear"`, the configured smoothing. -/
def RAMP_SMOOTHING : String := "linear"

/-- `RAMP_STEP_DELAY_FLOOR = 0.08` (seconds), minimum per-step sleep between
SetCom calls. -/
def RAMP_STEP_DELAY_FLOOR : ℚ := 8 / 100

/-! ### Python `round` (round half to even)

Python's builtin `round(x)` rounds to the nearest integer, ties to the even
integer.  The source applies `int(round(v_float))`; `round` already returns an
integer so the outer `int` is the identity. -/

/-- Embedding of Python's `round` builtin: nearest integer, ties to even. -/
def pyRound {α : Type} [LinearOrderedField α] [FloorRing α] (x : α) : ℤ :=
  if x - (⌊x⌋ : α) < 1 / 2 then ⌊x⌋
  else if 1 / 2 < x - (⌊x⌋ : α) then ⌊x⌋ + 1
  else if ⌊x⌋ % 2 = 0 then ⌊x⌋ else ⌊x⌋ + 1

theorem pyRound_le {α : Type} [LinearOrderedField α] [FloorRing α] (x : α) :
    (pyRound x : α) ≤ x + 1 / 2 := by
  have hf : ((⌊x⌋ : ℤ) : α) ≤ x := Int.floor_le x
  have hf' : x < (⌊x⌋ : α) + 1 := Int.lt_floor_add_one x
  unfold pyRound
  split_ifs with h1 h2 h3 <;> push_cast <;> linarith

theorem le_pyRound {α : Type} [LinearOrderedField α] [FloorRing α] (x : α) :
    x - 1 / 2 ≤ (pyRound x : α) := by
  have hf : ((⌊x⌋ : ℤ) : α) ≤ x := Int.floor_le x
  have hf' : x < (⌊x⌋ : α) + 1 := Int.lt_floor_add_one x
  unfold pyRound
  split_ifs with h1 h2 h3 <;> push_cast <;> linarith

theorem pyRound_mono {α : Type} [LinearOrderedField α] [FloorRing α]
    {x y : α} (h : x ≤ y) : pyRound x ≤ pyRound y := by
  by_contra hc
  push_neg at hc
  have h1 : (pyRound y : α) + 1 ≤ (pyRound x : α) := by exact_mod_cast hc
  have h2 := pyRound_le x
  have h3 := le_pyRound y
  have hyx : y ≤ x := by linarith
  have hxy : x = y := le_antisymm h hyx
  subst hxy
  exact lt_irrefl _ hc

theorem pyRound_intCast {α : Type} [LinearOrderedField α] [FloorRing α]
    (n : ℤ) : pyRound (n : α) = n := by
  unfold pyRound
  rw [Int.floor_intCast, sub_self]
  norm_num

theorem pyRound_zero {α : Type} [LinearOrderedField α] [FloorRing α] :
    pyRound (0 : α) = 0 := by
  have := pyRound_intCast (α := α) 0
  simpa using this

theorem pyRound_natCast {α : Type} [LinearOrderedField α] [FloorRing α]
    (k : ℕ) : pyRound ((k : ℕ) : α) = (k : ℤ) := by
  rw [show ((k : ℕ) : α) = ((k : ℤ) : α) by push_cast; ring]
  exact pyRound_intCast k

/-! ### Collapsing consecutive duplicates

The source collapses consecutive duplicates with
`prev = None; for v in samples: if v != prev: seq.append(v); prev = v`.
Since `prev` starts as `None`, the first element is always kept. -/

/-- The duplicate-collapsing loop after the first element has been kept:
`p` is the previously kept value. -/
def dedupTail : ℤ → List ℤ → List ℤ
  | _, [] => []
  | p, v :: rest => if v = p then dedupTail p rest else v :: dedupTail v rest

/-- Collapse consecutive duplicates (`prev = None` initially, so the head is
always kept). -/
def dedupConsec : List ℤ → List ℤ
  | [] => []
  | v :: rest => v :: dedupTail v rest

theorem dedupTail_sublist : ∀ (l : List ℤ) (p : ℤ), List.Sublist (dedupTail p l) l := by
  intro l
  induction l with
  | nil => intro p; simp [dedupTail]
  | cons v rest ih =>
    intro p
    by_cases h : v = p
    · simpa [dedupTail, h] using List.Sublist.cons v (ih p)
    · simpa [dedupTail, h] using List.Sublist.cons₂ v (ih v)

theorem dedupConsec_sublist (l : List ℤ) : List.Sublist (dedupConsec l) l := by
  cases l with
  | nil => simp [dedupConsec]
  | cons v rest => exact List.Sublist.cons₂ v (dedupTail_sublist rest v)

theorem dedupTail_getLastD :
    ∀ (l : List ℤ) (p : ℤ), (dedupTail p l).getLastD p = l.getLastD p := by
  intro l
  induction l with
  | nil => intro p; rfl
  | cons v rest ih =>
    intro p
    by_cases h : v = p
    · subst h
      have e1 : dedupTail v (v :: rest) = dedupTail v rest := by
        simp [dedupTail]
      rw [e1, ih v, List.getLastD_cons]
    · have e1 : dedupTail p (v :: rest) = v :: dedupTail v rest := by
        simp [dedupTail, h]
      rw [e1, List.getLastD_cons, List.getLastD_cons]
      exact ih v

theorem dedupConsec_getLastD (a : ℤ) (l : List ℤ) (d : ℤ) :
    (dedupConsec (a :: l)).getLastD d = (a :: l).getLastD d := by
  simp only [dedupConsec, List.getLastD_cons]
  exact dedupTail_getLastD l a

theorem dedupConsec_headD (a : ℤ) (l : List ℤ) (d : ℤ) :
    (dedupConsec (a :: l)).headD d = a := rfl

theorem dedupConsec_ne_nil (a : ℤ) (l : List ℤ) : dedupConsec (a :: l) ≠ [] := by
  simp [dedupConsec]

theorem dedupConsec_pairwise {R : ℤ → ℤ → Prop} {l : List ℤ}
    (h : l.Pairwise R) : (dedupConsec l).Pairwise R :=
  h.sublist (dedupConsec_sublist l)

/-! ### Forcing the endpoints

`_ease_sample_sequence` forces the endpoints twice:
`if seq[0] != start_v: seq.insert(0, start_v)` and
`if seq[-1] != end_v: seq.append(end_v)`.  The lists it is applied to are
provably nonempty, so the `headD`/`getLastD` defaults below are never
consulted (Python would raise `IndexError` on an empty list). -/

/-- The default passed to `getLastD` is irrelevant on a nonempty list. -/
theorem getLastD_cons_irrel (a : ℤ) (l : List ℤ) (d d' : ℤ) :
    (a :: l).getLastD d = (a :: l).getLastD d' := by
  rw [List.getLastD_cons, List.getLastD_cons]

/-- `if seq[0] != start_v: seq.insert(0, start_v)`. -/
def forceStart (s : ℤ) (l : List ℤ) : List ℤ :=
  if l.headD s ≠ s then s :: l else l

/-- `if seq[-1] != end_v: seq.append(end_v)`. -/
def forceEnd (e : ℤ) (l : List ℤ) : List ℤ :=
  if l.getLastD e ≠ e then l ++ [e] else l

/-- Force the first element to `s` and the last element to `e`. -/
def forceEnds (s e : ℤ) (l : List ℤ) : List ℤ :=
  forceEnd e (forceStart s l)

theorem forceStart_cons (s a : ℤ) (l : List ℤ) :
    ∃ l' : List ℤ, forceStart s (a :: l) = s :: l' ∧
      (s :: l').getLastD 0 = (a :: l).getLastD 0 := by
  unfold forceStart
  by_cases h : a = s
  · refine ⟨l, ?_, ?_⟩
    · rw [List.headD_cons, if_neg (by simpa using h)]
      rw [h]
    · rw [h]
  · refine ⟨a :: l, by rw [List.headD_cons, if_pos (by simpa using h)], ?_⟩
    rw [List.getLastD_cons]
    exact getLastD_cons_irrel a l s 0

theorem forceEnd_cons_headD (e a : ℤ) (l : List ℤ) (d : ℤ) :
    (forceEnd e (a :: l)).headD d = a := by
  unfold forceEnd
  split_ifs with h
  · rw [List.cons_append, List.headD_cons]
  · rw [List.headD_cons]

theorem forceEnd_getLastD (e a : ℤ) (l : List ℤ) (d : ℤ) :
    (forceEnd e (a :: l)).getLastD d = e := by
  unfold forceEnd
  split_ifs with h
  · rw [List.getLastD_concat]
  · push_neg at h
    rw [getLastD_cons_irrel a l d e, h]

theorem forceEnd_ne_nil (e a : ℤ) (l : List ℤ) : forceEnd e (a :: l) ≠ [] := by
  unfold forceEnd
  split_ifs with h <;> simp

theorem forceEnds_headD (s e : ℤ) (a : ℤ) (l : List ℤ) (d : ℤ) :
    (forceEnds s e (a :: l)).headD d = s := by
  unfold forceEnds
  obtain ⟨l', hl', -⟩ := forceStart_cons s a l
  rw [hl', forceEnd_cons_headD]

theorem forceEnds_getLastD (s e : ℤ) (a : ℤ) (l : List ℤ) (d : ℤ) :
    (forceEnds s e (a :: l)).getLastD d = e := by
  unfold forceEnds
  obtain ⟨l', hl', -⟩ := forceStart_cons s a l
  rw [hl', forceEnd_getLastD]

theorem forceEnds_ne_nil (s e : ℤ) (a : ℤ) (l : List ℤ) :
    forceEnds s e (a :: l) ≠ [] := by
  unfold forceEnds
  obtain ⟨l', hl', -⟩ := forceStart_cons s a l
  rw [hl']
  exact forceEnd_ne_nil e s l'

theorem forceEnds_length_two (s e : ℤ) (a : ℤ) (l : List ℤ) (hse : s ≠ e) :
    2 ≤ (forceEnds s e (a :: l)).length := by
  by_contra hc
  push_neg at hc
  have h1 : (forceEnds s e (a :: l)).headD 0 = s := forceEnds_headD s e a l 0
  have h2 : (forceEnds s e (a :: l)).getLastD 0 = e := forceEnds_getLastD s e a l 0
  have hne : forceEnds s e (a :: l) ≠ [] := forceEnds_ne_nil s e a l
  match hfe : forceEnds s e (a :: l) with
  | [] => exact hne hfe
  | [x] =>
    rw [hfe] at h1 h2
    simp only [List.headD_cons] at h1
    rw [List.getLastD_cons] at h2
    simp only [List.getLastD_nil] at h2
    exact hse (h1 ▸ h2 ▸ rfl)
  | x :: y :: t =>
    rw [hfe] at hc
    simp only [List.length_cons] at hc
    omega

/-- If the list already starts with `s` and ends with `e`, `forceEnds` is the
identity. -/
theorem forceEnds_eq_self (s e : ℤ) (a : ℤ) (l : List ℤ)
    (hh : a = s) (he : (a :: l).getLastD 0 = e) :
    forceEnds s e (a :: l) = a :: l := by
  have h1 : forceStart s (a :: l) = a :: l := by
    unfold forceStart
    rw [List.headD_cons, if_neg (by simpa using hh)]
  unfold forceEnds
  rw [h1]
  unfold forceEnd
  rw [getLastD_cons_irrel a l e 0, he, if_neg (by simp)]

theorem forceEnds_headD' (s e : ℤ) (l : List ℤ) (hl : l ≠ []) (d : ℤ) :
    (forceEnds s e l).headD d = s := by
  match l, hl with
  | a :: t, _ => exact forceEnds_headD s e a t d

theorem forceEnds_getLastD' (s e : ℤ) (l : List ℤ) (hl : l ≠ []) (d : ℤ) :
    (forceEnds s e l).getLastD d = e := by
  match l, hl with
  | a :: t, _ => exact forceEnds_getLastD s e a t d

theorem forceEnds_ne_nil' (s e : ℤ) (l : List ℤ) (hl : l ≠ []) :
    forceEnds s e l ≠ [] := by
  match l, hl with
  | a :: t, _ => exact forceEnds_ne_nil s e a t

theorem forceEnds_length_two' (s e : ℤ) (l : List ℤ) (hl : l ≠ []) (hse : s ≠ e) :
    2 ≤ (forceEnds s e l).length := by
  match l, hl with
  | a :: t, _ => exact forceEnds_length_two s e a t hse

theorem dedupConsec_ne_nil' (l : List ℤ) (hl : l ≠ []) : dedupConsec l ≠ [] := by
  match l, hl with
  | a :: t, _ => exact dedupConsec_ne_nil a t

theorem dedupConsec_headD' (l : List ℤ) (hl : l ≠ []) (d : ℤ) :
    (dedupConsec l).headD d = l.headD d := by
  match l, hl with
  | a :: t, _ => exact dedupConsec_headD a t d

theorem dedupConsec_getLastD' (l : List ℤ) (hl : l ≠ []) (d : ℤ) :
    (dedupConsec l).getLastD d = l.getLastD d := by
  match l, hl with
  | a :: t, _ => exact dedupConsec_getLastD a t d

/-! ### The easing functions and the sample list

In `_ease_sample_sequence` the smoothing function is selected by
`fn = linear if smoothing == "linear" else cosine`, where
`def linear(t): return t` and `def cosine(t): return (1 - math.cos(math.pi * t)) / 2`.
The sample list is
`[int(round(start_v + (end_v - start_v) * fn(i / total_steps))) for i in range(total_steps + 1)]`
with `total_steps = abs(end_v - start_v)`. -/

/-- The `linear` easing function of the source. -/
def linear {α : Type} (t : α) : α := t

/-- The `cosine` easing function of the source (`math.cos` is embedded as
`Real.cos`). -/
noncomputable def cosine (t : ℝ) : ℝ := (1 - Real.cos (Real.pi * t)) / 2

/-- The eased samples at one-per-integer-step resolution (the first loop of
`_ease_sample_sequence`); only meaningful when `start_v ≠ end_v`, the caller
returns `[end_v]` before reaching this loop otherwise. -/
def easedSamples {α : Type} [LinearOrderedField α] [FloorRing α]
    (fn : α → α) (startV endV : ℤ) : List ℤ :=
  (List.range ((endV - startV).natAbs + 1)).map fun (i : ℕ) =>
    pyRound ((startV : α) + ((endV - startV : ℤ) : α) *
      fn (((i : ℕ) : α) / (((endV - startV).natAbs : ℕ) : α)))

/-- The eased samples with consecutive duplicates collapsed and the endpoints
forced (the state of `seq` just before the downsampling block). -/
def baseSeq {α : Type} [LinearOrderedField α] [FloorRing α]
    (fn : α → α) (startV endV : ℤ) : List ℤ :=
  forceEnds startV endV (dedupConsec (easedSamples fn startV endV))

/-- One downsampling pass: `N` evenly spaced indices
`idx = int(round(j * (len(seq) - 1) / float(N - 1)))` for `j in range(N)`
(Python's `round` returns an integer, so the outer `int` is the identity;
an index out of range would raise in Python and cannot occur, `getD _ 0`
is only a total stand-in). -/
def downsample (α : Type) [LinearOrderedField α] [FloorRing α]
    (n : ℕ) (seq : List ℤ) : List ℤ :=
  (List.range n).map fun (j : ℕ) =>
    seq.getD (pyRound (((j * (seq.length - 1) : ℕ) : α) / (((n - 1 : ℕ)) : α))).toNat 0

/-- Embedding of `_ease_sample_sequence(start_v, end_v, smoothing, max_samples)`
with the smoothing function `fn` already selected.  Returns `[end_v]` when
`total_steps == 0`; otherwise collapses duplicates, forces endpoints, and
downsamples (re-collapsing and re-forcing) when
`max_samples is not None and max_samples >= 2 and len(seq) > max_samples`. -/
def easeSampleSequence {α : Type} [LinearOrderedField α] [FloorRing α]
    (fn : α → α) (startV endV : ℤ) (maxSamples : Option ℕ) : List ℤ :=
  if (endV - startV).natAbs = 0 then [endV]
  else
    match maxSamples with
    | none => baseSeq fn startV endV
    | some n =>
      if 2 ≤ n ∧ n < (baseSeq fn startV endV).length then
        forceEnds startV endV (dedupConsec (downsample α n (baseSeq fn startV endV)))
      else baseSeq fn startV endV

theorem easedSamples_ne_nil {α : Type} [LinearOrderedField α] [FloorRing α]
    (fn : α → α) (s e : ℤ) : easedSamples fn s e ≠ [] := by
  unfold easedSamples
  intro hc
  have hlen := congrArg List.length hc
  simp at hlen

theorem baseSeq_ne_nil {α : Type} [LinearOrderedField α] [FloorRing α]
    (fn : α → α) (s e : ℤ) : baseSeq fn s e ≠ [] :=
  forceEnds_ne_nil' s e _ (dedupConsec_ne_nil' _ (easedSamples_ne_nil fn s e))

theorem baseSeq_headD {α : Type} [LinearOrderedField α] [FloorRing α]
    (fn : α → α) (s e : ℤ) (d : ℤ) : (baseSeq fn s e).headD d = s :=
  forceEnds_headD' s e _ (dedupConsec_ne_nil' _ (easedSamples_ne_nil fn s e)) d

theorem baseSeq_getLastD {α : Type} [LinearOrderedField α] [FloorRing α]
    (fn : α → α) (s e : ℤ) (d : ℤ) : (baseSeq fn s e).getLastD d = e :=
  forceEnds_getLastD' s e _ (dedupConsec_ne_nil' _ (easedSamples_ne_nil fn s e)) d

theorem downsample_ne_nil (α : Type) [LinearOrderedField α] [FloorRing α]
    (n : ℕ) (hn : 2 ≤ n) (seq : List ℤ) : downsample α n seq ≠ [] := by
  unfold downsample
  intro hc
  have hlen := congrArg List.length hc
  simp only [List.length_map, List.length_range, List.length_nil] at hlen
  omega

/-! ### Generic lemmas about lists of the form `(range k).map g` -/

theorem mapRange_headD (g : ℕ → ℤ) (k : ℕ) (d : ℤ) :
    ((List.range (k + 1)).map g).headD d = g 0 := by
  rw [List.range_succ_eq_map]
  rfl

theorem mapRange_getLastD (g : ℕ → ℤ) (k : ℕ) (d : ℤ) :
    ((List.range (k + 1)).map g).getLastD d = g k := by
  rw [List.range_succ, List.map_append]
  simp [List.getLastD_concat]

theorem mapRange_pairwise {R : ℤ → ℤ → Prop} (g : ℕ → ℤ) (k : ℕ)
    (hg : ∀ i j : ℕ, i < j → j < k → R (g i) (g j)) :
    ((List.range k).map g).Pairwise R := by
  rw [List.pairwise_map]
  refine (List.pairwise_lt_range k).imp_of_mem ?_
  intro a b ha hb hab
  exact hg a b hab (List.mem_range.mp hb)

/-- In a `Pairwise R` list with `R` reflexive, entries at indices `i ≤ j` are
related. -/
theorem pairwise_getD {R : ℤ → ℤ → Prop} [IsRefl ℤ R] {l : List ℤ}
    (h : l.Pairwise R) (i j : ℕ) (hij : i ≤ j) (hj : j < l.length) (d : ℤ) :
    R (l.getD i d) (l.getD j d) := by
  have hi : i < l.length := lt_of_le_of_lt hij hj
  rw [List.getD_eq_getElem?_getD, List.getD_eq_getElem?_getD,
    List.getElem?_eq_getElem hi, List.getElem?_eq_getElem hj]
  rcases lt_or_eq_of_le hij with h' | h'
  · exact List.pairwise_iff_getElem.mp h i j hi hj h'
  · subst h'
    exact IsRefl.refl _

theorem getD_zero_eq_headD (l : List ℤ) (hl : l ≠ []) (d : ℤ) :
    l.getD 0 d = l.headD d := by
  match l, hl with
  | a :: t, _ => rfl

theorem getD_length_sub_one (l : List ℤ) (hl : l ≠ []) (d : ℤ) :
    l.getD (l.length - 1) d = l.getLastD d := by
  match l, hl with
  | a :: t, _ =>
    have hlt : (a :: t).length - 1 < (a :: t).length := by
      simp [List.length_cons]
    rw [List.getD_eq_getElem?_getD, List.getElem?_eq_getElem hlt]
    rw [← List.getLast_eq_getElem (a :: t) (by simp)]
    rw [List.getLast_eq_getLastD, Option.getD_some, List.getLastD_cons]

/-! ### Properties of one downsampling pass -/

theorem downsample_idx_le {α : Type} [LinearOrderedField α] [FloorRing α]
    (n : ℕ) (hn : 2 ≤ n) (L : ℕ) (j : ℕ) (hj : j < n) :
    (pyRound (((j * L : ℕ) : α) / (((n - 1 : ℕ)) : α))).toNat ≤ L := by
  have hm : (0 : α) < ((n - 1 : ℕ) : α) := by
    have h1 : 0 < n - 1 := by omega
    exact_mod_cast h1
  have hx : ((j * L : ℕ) : α) / ((n - 1 : ℕ) : α) ≤ ((L : ℕ) : α) := by
    rw [div_le_iff₀ hm]
    have hjL : ((j * L : ℕ) : α) ≤ ((((n - 1) * L : ℕ)) : α) := by
      have : j * L ≤ (n - 1) * L := Nat.mul_le_mul_right L (by omega)
      exact_mod_cast this
    calc ((j * L : ℕ) : α) ≤ (((n - 1) * L : ℕ) : α) := hjL
      _ = ((L : ℕ) : α) * ((n - 1 : ℕ) : α) := by push_cast; ring
  have hmono := pyRound_mono hx
  rw [pyRound_natCast] at hmono
  omega

theorem downsample_idx_mono {α : Type} [LinearOrderedField α] [FloorRing α]
    (n : ℕ) (hn : 2 ≤ n) (L : ℕ) (i j : ℕ) (hij : i ≤ j) :
    (pyRound (((i * L : ℕ) : α) / (((n - 1 : ℕ)) : α))).toNat ≤
      (pyRound (((j * L : ℕ) : α) / (((n - 1 : ℕ)) : α))).toNat := by
  have hm : (0 : α) < ((n - 1 : ℕ) : α) := by
    have h1 : 0 < n - 1 := by omega
    exact_mod_cast h1
  have hx : ((i * L : ℕ) : α) / ((n - 1 : ℕ) : α) ≤ ((j * L : ℕ) : α) / ((n - 1 : ℕ) : α) := by
    apply div_le_div_of_nonneg_right ?_ hm.le
    exact_mod_cast Nat.mul_le_mul_right L hij
  exact Int.toNat_le_toNat (pyRound_mono hx)

theorem downsample_idx_zero {α : Type} [LinearOrderedField α] [FloorRing α]
    (n : ℕ) (L : ℕ) :
    (pyRound (((0 * L : ℕ) : α) / (((n - 1 : ℕ)) : α))).toNat = 0 := by
  rw [show ((0 * L : ℕ) : α) = 0 by push_cast; ring, zero_div, pyRound_zero]
  rfl

theorem downsample_idx_last {α : Type} [LinearOrderedField α] [FloorRing α]
    (n : ℕ) (hn : 2 ≤ n) (L : ℕ) :
    (pyRound ((((n - 1) * L : ℕ) : α) / (((n - 1 : ℕ)) : α))).toNat = L := by
  have hm : ((n - 1 : ℕ) : α) ≠ 0 := by
    have h1 : 0 < n - 1 := by omega
    have : (0 : α) < ((n - 1 : ℕ) : α) := by exact_mod_cast h1
    exact ne_of_gt this
  rw [show (((n - 1) * L : ℕ) : α) = ((n - 1 : ℕ) : α) * ((L : ℕ) : α) by push_cast; ring]
  rw [mul_div_cancel_left₀ _ hm, pyRound_natCast]
  exact Int.toNat_natCast L

theorem downsample_headD (α : Type) [LinearOrderedField α] [FloorRing α]
    (n : ℕ) (hn : 2 ≤ n) (seq : List ℤ) (hseq : seq ≠ []) (d : ℤ) :
    (downsample α n seq).headD d = seq.headD 0 := by
  unfold downsample
  obtain ⟨m, rfl⟩ : ∃ m, n = m + 1 := ⟨n - 1, by omega⟩
  rw [mapRange_headD]
  simp only [downsample_idx_zero, getD_zero_eq_headD seq hseq]

theorem downsample_getLastD (α : Type) [LinearOrderedField α] [FloorRing α]
    (n : ℕ) (hn : 2 ≤ n) (seq : List ℤ) (hseq : seq ≠ []) (d : ℤ) :
    (downsample α n seq).getLastD d = seq.getLastD 0 := by
  unfold downsample
  obtain ⟨m, rfl⟩ : ∃ m, n = m + 1 := ⟨n - 1, by omega⟩
  rw [mapRange_getLastD]
  have hlast := downsample_idx_last (α := α) (m + 1) hn (seq.length - 1)
  simp only [Nat.add_sub_cancel] at hlast ⊢
  rw [hlast, getD_length_sub_one seq hseq]

theorem downsample_pairwise {α : Type} [LinearOrderedField α] [FloorRing α]
    {R : ℤ → ℤ → Prop} [IsRefl ℤ R] (n : ℕ) (hn : 2 ≤ n) (seq : List ℤ)
    (hseq : seq ≠ []) (hp : seq.Pairwise R) : (downsample α n seq).Pairwise R := by
  unfold downsample
  apply mapRange_pairwise
  intro i j hij hjn
  apply pairwise_getD hp _ _ ?_ ?_ 0
  · exact downsample_idx_mono n hn (seq.length - 1) i j (le_of_lt hij)
  · have h1 := downsample_idx_le (α := α) n hn (seq.length - 1) j hjn
    have h2 : 0 < seq.length := List.length_pos.mpr hseq
    omega


/-! ### Properties of the eased samples -/

theorem easedSamples_headD {α : Type} [LinearOrderedField α] [FloorRing α]
    (fn : α → α) (h0 : fn 0 = 0) (s e : ℤ) (d : ℤ) :
    (easedSamples fn s e).headD d = s := by
  unfold easedSamples
  rw [mapRange_headD]
  simp only [Nat.cast_zero, zero_div, h0, mul_zero, add_zero]
  exact pyRound_intCast s

theorem easedSamples_getLastD {α : Type} [LinearOrderedField α] [FloorRing α]
    (fn : α → α) (h1 : fn 1 = 1) (s e : ℤ) (d : ℤ)
    (hse : (e - s).natAbs ≠ 0) :
    (easedSamples fn s e).getLastD d = e := by
  unfold easedSamples
  rw [mapRange_getLastD]
  have hns : (((e - s).natAbs : ℕ) : α) ≠ 0 := by
    exact_mod_cast hse
  simp only [div_self hns, h1, mul_one]
  rw [show (s : α) + ((e - s : ℤ) : α) = ((e : ℤ) : α) by push_cast; ring]
  exact pyRound_intCast e

theorem easedSamples_pairwise_le {α : Type} [LinearOrderedField α] [FloorRing α]
    (fn : α → α) (hmono : MonotoneOn fn (Set.Icc 0 1))
    (s e : ℤ) (hse : s < e) : (easedSamples fn s e).Pairwise (· ≤ ·) := by
  unfold easedSamples
  apply mapRange_pairwise
  intro i j hij hjk
  apply pyRound_mono
  have hsteps : (0 : α) < (((e - s).natAbs : ℕ) : α) := by
    have h' : 0 < (e - s).natAbs := by omega
    exact_mod_cast h'
  have hji : j ≤ (e - s).natAbs := by omega
  have hmemi : ((i : ℕ) : α) / (((e - s).natAbs : ℕ) : α) ∈ Set.Icc (0 : α) 1 := by
    constructor
    · positivity
    · rw [div_le_one hsteps]
      exact_mod_cast le_trans (le_of_lt hij) hji
  have hmemj : ((j : ℕ) : α) / (((e - s).natAbs : ℕ) : α) ∈ Set.Icc (0 : α) 1 := by
    constructor
    · positivity
    · rw [div_le_one hsteps]
      exact_mod_cast hji
  have hdiv : ((i : ℕ) : α) / (((e - s).natAbs : ℕ) : α)
      ≤ ((j : ℕ) : α) / (((e - s).natAbs : ℕ) : α) := by
    apply div_le_div_of_nonneg_right ?_ hsteps.le
    exact_mod_cast le_of_lt hij
  have hf := hmono hmemi hmemj hdiv
  have hc : (0 : α) ≤ ((e - s : ℤ) : α) := by
    have h' : (0 : ℤ) ≤ e - s := by omega
    exact_mod_cast h'
  have := mul_le_mul_of_nonneg_left hf hc
  linarith

theorem easedSamples_pairwise_ge {α : Type} [LinearOrderedField α] [FloorRing α]
    (fn : α → α) (hmono : MonotoneOn fn (Set.Icc 0 1))
    (s e : ℤ) (hse : e < s) : (easedSamples fn s e).Pairwise (· ≥ ·) := by
  unfold easedSamples
  apply mapRange_pairwise
  intro i j hij hjk
  apply pyRound_mono
  have hsteps : (0 : α) < (((e - s).natAbs : ℕ) : α) := by
    have h' : 0 < (e - s).natAbs := by omega
    exact_mod_cast h'
  have hji : j ≤ (e - s).natAbs := by omega
  have hmemi : ((i : ℕ) : α) / (((e - s).natAbs : ℕ) : α) ∈ Set.Icc (0 : α) 1 := by
    constructor
    · positivity
    · rw [div_le_one hsteps]
      exact_mod_cast le_trans (le_of_lt hij) hji
  have hmemj : ((j : ℕ) : α) / (((e - s).natAbs : ℕ) : α) ∈ Set.Icc (0 : α) 1 := by
    constructor
    · positivity
    · rw [div_le_one hsteps]
      exact_mod_cast hji
  have hdiv : ((i : ℕ) : α) / (((e - s).natAbs : ℕ) : α)
      ≤ ((j : ℕ) : α) / (((e - s).natAbs : ℕ) : α) := by
    apply div_le_div_of_nonneg_right ?_ hsteps.le
    exact_mod_cast le_of_lt hij
  have hf := hmono hmemi hmemj hdiv
  have hc : ((e - s : ℤ) : α) ≤ 0 := by
    have h' : e - s ≤ (0 : ℤ) := by omega
    exact_mod_cast h'
  have := mul_le_mul_of_nonpos_left hf hc
  linarith

/-! ### The assembled sequence is monotone and has the right endpoints -/

theorem forceEnds_dedup_pairwise {R : ℤ → ℤ → Prop} (s e : ℤ) (l : List ℤ)
    (hl : l ≠ []) (hp : l.Pairwise R) (hh : l.headD 0 = s)
    (he : l.getLastD 0 = e) :
    (forceEnds s e (dedupConsec l)).Pairwise R := by
  obtain ⟨a, t, rfl⟩ := List.exists_cons_of_ne_nil hl
  have hdc : dedupConsec (a :: t) = a :: dedupTail a t := rfl
  have hhs : a = s := by
    rw [List.headD_cons] at hh
    exact hh
  have hgl : (a :: dedupTail a t).getLastD 0 = e := by
    rw [← hdc, dedupConsec_getLastD a t 0]
    exact he
  rw [hdc, forceEnds_eq_self s e a (dedupTail a t) hhs hgl, ← hdc]
  exact dedupConsec_pairwise hp

theorem easeSampleSequence_pairwise {α : Type} [LinearOrderedField α] [FloorRing α]
    {R : ℤ → ℤ → Prop} [IsRefl ℤ R] (fn : α → α) (s e : ℤ) (ms : Option ℕ)
    (hsp : (easedSamples fn s e).Pairwise R)
    (hh : (easedSamples fn s e).headD 0 = s)
    (hl : (easedSamples fn s e).getLastD 0 = e) :
    (easeSampleSequence fn s e ms).Pairwise R := by
  have hbase : (baseSeq fn s e).Pairwise R :=
    forceEnds_dedup_pairwise s e _ (easedSamples_ne_nil fn s e) hsp hh hl
  unfold easeSampleSequence
  split_ifs with hz
  · simp
  · cases ms with
    | none => exact hbase
    | some n =>
      simp only
      split_ifs with hcond
      · apply forceEnds_dedup_pairwise s e _
          (downsample_ne_nil α n hcond.1 _)
          (downsample_pairwise n hcond.1 _ (baseSeq_ne_nil fn s e) hbase)
        · rw [downsample_headD α n hcond.1 _ (baseSeq_ne_nil fn s e) 0]
          exact baseSeq_headD fn s e 0
        · rw [downsample_getLastD α n hcond.1 _ (baseSeq_ne_nil fn s e) 0]
          exact baseSeq_getLastD fn s e 0
      · exact hbase

theorem baseSeq_length_two {α : Type} [LinearOrderedField α] [FloorRing α]
    (fn : α → α) (s e : ℤ) (hse : s ≠ e) : 2 ≤ (baseSeq fn s e).length :=
  forceEnds_length_two' s e _ (dedupConsec_ne_nil' _ (easedSamples_ne_nil fn s e)) hse

/-- Claim C7: for every `(start, end, smoothing, max_samples)` with
`max_samples ≥ 2`, the planned sequence starts exactly at `start`, ends
exactly at `end`, and has length at least 2 unless `start = end`, in which
case it is exactly `[end]` of length 1.  Proved for an arbitrary smoothing
function `fn`, which covers both the `linear` and the `cosine` easing. -/
theorem C7_sequence_endpoints {α : Type} [LinearOrderedField α] [FloorRing α]
    (fn : α → α) (s e : ℤ) (n : ℕ) (hn : 2 ≤ n) :
    (easeSampleSequence fn s e (some n)).headD 0 = s ∧
    (easeSampleSequence fn s e (some n)).getLastD 0 = e ∧
    (s = e → easeSampleSequence fn s e (some n) = [e]) ∧
    (s ≠ e → 2 ≤ (easeSampleSequence fn s e (some n)).length) := by
  by_cases hse : s = e
  · have hz : (e - s).natAbs = 0 := by omega
    unfold easeSampleSequence
    rw [if_pos hz]
    refine ⟨?_, rfl, fun _ => rfl, fun hc => absurd hse hc⟩
    rw [List.headD_cons, hse]
  · have hz : ¬(e - s).natAbs = 0 := by omega
    have hne : dedupConsec (easedSamples fn s e) ≠ [] :=
      dedupConsec_ne_nil' _ (easedSamples_ne_nil fn s e)
    have hbh := baseSeq_headD fn s e 0
    have hbl := baseSeq_getLastD fn s e 0
    have hb2 := baseSeq_length_two fn s e hse
    unfold easeSampleSequence
    rw [if_neg hz]
    simp only
    split_ifs with hcond
    · have hne2 : dedupConsec (downsample α n (baseSeq fn s e)) ≠ [] :=
        dedupConsec_ne_nil' _ (downsample_ne_nil α n hcond.1 _)
      exact ⟨forceEnds_headD' s e _ hne2 0, forceEnds_getLastD' s e _ hne2 0,
        fun hc => absurd hc hse, fun _ => forceEnds_length_two' s e _ hne2 hse⟩
    · exact ⟨hbh, hbl, fun hc => absurd hc hse, fun _ => hb2⟩

/-- Witness for C7 at `fn = linear` over `ℚ`, `start = 0`, `end = 5`,
`max_samples = 3`. -/
theorem C7_sequence_endpoints_witness :
    2 ≤ 3 ∧
    ((easeSampleSequence (α := ℚ) linear 0 5 (some 3)).headD 0 = 0 ∧
     (easeSampleSequence (α := ℚ) linear 0 5 (some 3)).getLastD 0 = 5 ∧
     ((0 : ℤ) = 5 → easeSampleSequence (α := ℚ) linear 0 5 (some 3) = [5]) ∧
     ((0 : ℤ) ≠ 5 → 2 ≤ (easeSampleSequence (α := ℚ) linear 0 5 (some 3)).length)) :=
  ⟨by decide, C7_sequence_endpoints linear 0 5 3 (by decide)⟩

/-! ### Monotonicity facts for the two easing functions -/

theorem cosine_zero : cosine 0 = 0 := by
  unfold cosine
  rw [mul_zero, Real.cos_zero]
  norm_num

theorem cosine_one : cosine 1 = 1 := by
  unfold cosine
  rw [mul_one, Real.cos_pi]
  norm_num

theorem cosine_monotoneOn : MonotoneOn cosine (Set.Icc 0 1) := by
  intro x hx y hy hxy
  unfold cosine
  have h1 : Real.cos (Real.pi * y) ≤ Real.cos (Real.pi * x) := by
    apply Real.cos_le_cos_of_nonneg_of_le_pi
    · exact mul_nonneg Real.pi_pos.le hx.1
    · calc Real.pi * y ≤ Real.pi * 1 :=
            mul_le_mul_of_nonneg_left hy.2 Real.pi_pos.le
        _ = Real.pi := mul_one _
    · exact mul_le_mul_of_nonneg_left hxy Real.pi_pos.le
  linarith

theorem linear_monotoneOn {α : Type} [LinearOrderedField α] :
    MonotoneOn (linear : α → α) (Set.Icc 0 1) :=
  fun _ _ _ _ h => h

/-- Claim C8: every planned sequence (linear or cosine smoothing, with or
without downsampling) is monotone non-decreasing when `end > start` and
monotone non-increasing when `end < start`. -/
theorem C8_monotone_samples (s e : ℤ) (ms : Option ℕ) :
    (s < e →
      (easeSampleSequence (α := ℚ) linear s e ms).Pairwise (· ≤ ·) ∧
      (easeSampleSequence cosine s e ms).Pairwise (· ≤ ·)) ∧
    (e < s →
      (easeSampleSequence (α := ℚ) linear s e ms).Pairwise (· ≥ ·) ∧
      (easeSampleSequence cosine s e ms).Pairwise (· ≥ ·)) := by
  constructor
  · intro hse
    have hnz : (e - s).natAbs ≠ 0 := by omega
    constructor
    · exact easeSampleSequence_pairwise linear s e ms
        (easedSamples_pairwise_le linear linear_monotoneOn s e hse)
        (easedSamples_headD linear rfl s e 0)
        (easedSamples_getLastD linear rfl s e 0 hnz)
    · exact easeSampleSequence_pairwise cosine s e ms
        (easedSamples_pairwise_le cosine cosine_monotoneOn s e hse)
        (easedSamples_headD cosine cosine_zero s e 0)
        (easedSamples_getLastD cosine cosine_one s e 0 hnz)
  · intro hse
    have hnz : (e - s).natAbs ≠ 0 := by omega
    constructor
    · exact easeSampleSequence_pairwise linear s e ms
        (easedSamples_pairwise_ge linear linear_monotoneOn s e hse)
        (easedSamples_headD linear rfl s e 0)
        (easedSamples_getLastD linear rfl s e 0 hnz)
    · exact easeSampleSequence_pairwise cosine s e ms
        (easedSamples_pairwise_ge cosine cosine_monotoneOn s e hse)
        (easedSamples_headD cosine cosine_zero s e 0)
        (easedSamples_getLastD cosine cosine_one s e 0 hnz)

/-- Witness for C8 at `start = 0`, `end = 3`, no downsampling. -/
theorem C8_monotone_samples_witness :
    (0 : ℤ) < 3 ∧
    ((easeSampleSequence (α := ℚ) linear 0 3 none).Pairwise (· ≤ ·) ∧
     (easeSampleSequence cosine 0 3 none).Pairwise (· ≤ ·)) :=
  ⟨by decide, (C8_monotone_samples 0 3 none).1 (by decide)⟩

/-! ### The ramp plan

Planning prefix of `_ramp_runner` (after the no-op shortcut, so only
meaningful for `start_v != end_v`):

    desired_duration_s = max(0.0, duration_ms / 1000.0)
    max_intervals = max(1, int(math.floor(desired_duration_s / RAMP_STEP_DELAY_FLOOR)))
    seq = _ease_sample_sequence(start_v, end_v, RAMP_SMOOTHING, max_samples=(max_intervals + 1))
    intervals = max(1, len(seq) - 1)
    interval_s = desired_duration_s / intervals if desired_duration_s > 0 else 0.0
    if interval_s < RAMP_STEP_DELAY_FLOOR and desired_duration_s > 0:
        interval_s = RAMP_STEP_DELAY_FLOOR

`RAMP_SMOOTHING = "linear"` selects the `linear` easing inside
`_ease_sample_sequence`, so the plan is embedded over `ℚ`. -/

/-- `desired_duration_s = max(0.0, duration_ms / 1000.0)`. -/
def desiredDurationS (durationMs : ℤ) : ℚ := max 0 ((durationMs : ℚ) / 1000)

/-- `max_intervals = max(1, int(math.floor(desired_duration_s / RAMP_STEP_DELAY_FLOOR)))`. -/
def maxIntervalsFor (durationMs : ℤ) : ℕ :=
  max 1 (⌊desiredDurationS durationMs / RAMP_STEP_DELAY_FLOOR⌋).toNat

/-- The planned sample sequence of the ramp runner. -/
def rampSeq (startV endV durationMs : ℤ) : List ℤ :=
  easeSampleSequence (α := ℚ) linear startV endV (some (maxIntervalsFor durationMs + 1))

/-- `intervals = max(1, len(seq) - 1)`. -/
def rampIntervals (startV endV durationMs : ℤ) : ℕ :=
  max 1 ((rampSeq startV endV durationMs).length - 1)

/-- `interval_s = desired_duration_s / intervals if desired_duration_s > 0 else 0.0`. -/
def rampInterval0 (startV endV durationMs : ℤ) : ℚ :=
  if 0 < desiredDurationS durationMs
  then desiredDurationS durationMs / (rampIntervals startV endV durationMs : ℚ)
  else 0

/-- The per-step interval finally used: the floor is enforced by
`if interval_s < RAMP_STEP_DELAY_FLOOR and desired_duration_s > 0`. -/
def rampInterval (startV endV durationMs : ℤ) : ℚ :=
  if rampInterval0 startV endV durationMs < RAMP_STEP_DELAY_FLOOR ∧
      0 < desiredDurationS durationMs
  then RAMP_STEP_DELAY_FLOOR
  else rampInterval0 startV endV durationMs

theorem desiredDurationS_pos (d : ℤ) (hd : 0 < d) : 0 < desiredDurationS d := by
  unfold desiredDurationS
  have h1 : (0 : ℚ) < (d : ℚ) / 1000 := by
    have h2 : (0 : ℚ) < (d : ℚ) := by exact_mod_cast hd
    positivity
  exact lt_max_of_lt_right h1

theorem rampIntervals_cast_pos (s e d : ℤ) :
    (0 : ℚ) < (rampIntervals s e d : ℚ) := by
  have h1 : 1 ≤ rampIntervals s e d := le_max_left _ _
  exact_mod_cast lt_of_lt_of_le Nat.zero_lt_one h1

/-- Claim C6: for every ramp plan computed with duration `d > 0` and
`start ≠ end`, the per-step interval finally used is at least the configured
floor `RAMP_STEP_DELAY_FLOOR`. -/
theorem C6_floor_respected (s e d : ℤ) (hd : 0 < d) (hse : s ≠ e) :
    RAMP_STEP_DELAY_FLOOR ≤ rampInterval s e d := by
  have hdes := desiredDurationS_pos d hd
  unfold rampInterval
  split_ifs with h
  · exact le_refl _
  · push_neg at h
    exact not_lt.mp fun hc => absurd (h hc) (not_le.mpr hdes)

/-- Witness for C6 at `start = 0`, `end = 10`, `duration_ms = 1000`. -/
theorem C6_floor_respected_witness :
    (0 : ℤ) < 1000 ∧ (0 : ℤ) ≠ 10 ∧
    RAMP_STEP_DELAY_FLOOR ≤ rampInterval 0 10 1000 :=
  ⟨by decide, by decide, C6_floor_respected 0 10 1000 (by decide) (by decide)⟩

/-- Claim C3, amended: for `d > 0` and `start ≠ end` the total planned
duration `interval * intervals` equals
`max(desired, RAMP_STEP_DELAY_FLOOR * intervals)`: it equals the requested
duration exactly when the floor is not enforced, and equals
`floor * intervals` (which is at least `d` but not bounded by `2 * d`) when
the floor dominates. -/
theorem C3_duration_amended (s e d : ℤ) (hd : 0 < d) (hse : s ≠ e) :
    rampInterval s e d * (rampIntervals s e d : ℚ)
      = max (desiredDurationS d)
          (RAMP_STEP_DELAY_FLOOR * (rampIntervals s e d : ℚ)) ∧
    desiredDurationS d ≤ rampInterval s e d * (rampIntervals s e d : ℚ) := by
  have hdes := desiredDurationS_pos d hd
  have hn := rampIntervals_cast_pos s e d
  have h0 : rampInterval0 s e d
      = desiredDurationS d / (rampIntervals s e d : ℚ) := by
    unfold rampInterval0
    rw [if_pos hdes]
  unfold rampInterval
  split_ifs with h
  · have hlt : desiredDurationS d / (rampIntervals s e d : ℚ)
        < RAMP_STEP_DELAY_FLOOR := by
      rw [← h0]
      exact h.1
    rw [div_lt_iff₀ hn] at hlt
    constructor
    · rw [max_eq_right hlt.le]
    · linarith
  · push_neg at h
    have hge : RAMP_STEP_DELAY_FLOOR ≤ rampInterval0 s e d :=
      not_lt.mp fun hc => absurd (h hc) (not_le.mpr hdes)
    rw [h0] at hge ⊢
    rw [le_div_iff₀ hn] at hge
    have heq : desiredDurationS d / (rampIntervals s e d : ℚ)
        * (rampIntervals s e d : ℚ) = desiredDurationS d :=
      div_mul_cancel₀ _ (ne_of_gt hn)
    rw [heq]
    exact ⟨(max_eq_left hge).symm, le_refl _⟩

/-- Witness for the amended C3 at `start = 0`, `end = 10`,
`duration_ms = 1000`. -/
theorem C3_duration_amended_witness :
    (0 : ℤ) < 1000 ∧ (0 : ℤ) ≠ 10 ∧
    (rampInterval 0 10 1000 * (rampIntervals 0 10 1000 : ℚ)
      = max (desiredDurationS 1000)
          (RAMP_STEP_DELAY_FLOOR * (rampIntervals 0 10 1000 : ℚ)) ∧
     desiredDurationS 1000 ≤ rampInterval 0 10 1000 * (rampIntervals 0 10 1000 : ℚ)) :=
  ⟨by decide, by decide, C3_duration_amended 0 10 1000 (by decide) (by decide)⟩

theorem maxIntervalsFor_10 : maxIntervalsFor 10 = 1 := by
  norm_num [maxIntervalsFor, desiredDurationS, RAMP_STEP_DELAY_FLOOR]

theorem rampSeq_0_1_10 : rampSeq 0 1 10 = [0, 1] := by
  rw [rampSeq, maxIntervalsFor_10]
  norm_num [easeSampleSequence, baseSeq, easedSamples, forceEnds, forceStart,
    forceEnd, dedupConsec, dedupTail, pyRound, linear, List.range_succ]

theorem rampIntervals_0_1_10 : rampIntervals 0 1 10 = 1 := by
  rw [rampIntervals, rampSeq_0_1_10]
  rfl

theorem rampInterval_0_1_10 : rampInterval 0 1 10 = 2 / 25 := by
  norm_num [rampInterval, rampInterval0, rampIntervals_0_1_10,
    desiredDurationS, RAMP_STEP_DELAY_FLOOR]

/-- Counterexample to C3 as stated: at `start = 0`, `end = 1`,
`duration_ms = 10` the requested duration is `d = 0.01 s`, but the floor is
enforced, the single interval becomes `0.08 s`, and the total planned
duration `0.08 s` is not below `2 * d = 0.02 s`, so
`interval * intervals ∈ [d, 2 * d)` fails. -/
theorem C3_duration_counterexample :
    (0 : ℤ) < 10 ∧ (0 : ℤ) ≠ 1 ∧
    desiredDurationS 10 = 1 / 100 ∧
    rampInterval 0 1 10 * (rampIntervals 0 1 10 : ℚ) = 2 / 25 ∧
    ¬(rampInterval 0 1 10 * (rampIntervals 0 1 10 : ℚ)
        < 2 * desiredDurationS 10) := by
  have hd : desiredDurationS 10 = 1 / 100 := by
    norm_num [desiredDurationS]
  refine ⟨by decide, by decide, hd, ?_, ?_⟩
  · rw [rampInterval_0_1_10, rampIntervals_0_1_10]
    norm_num
  · rw [rampInterval_0_1_10, rampIntervals_0_1_10, hd]
    norm_num

/-! ### The per-step timeout of the ramp runner

For each step after the baseline, `_ramp_runner` computes

    per_step_timeout = max(10.0, interval_s * 2.0) if interval_s > 0 else max(10.0, SUBPROCESS_TIMEOUT)

and invokes SetCom with `timeout=min(per_step_timeout, SUBPROCESS_TIMEOUT)`. -/

/-- The `per_step_timeout` computed at line 490 of the source. -/
def perStepTimeout (intervalS : ℚ) : ℚ :=
  if 0 < intervalS then max 10 (intervalS * 2) else max 10 SUBPROCESS_TIMEOUT

/-- The timeout actually passed to `_start_proc_and_wait` for a ramp step. -/
def rampStepTimeout (intervalS : ℚ) : ℚ :=
  min (perStepTimeout intervalS) SUBPROCESS_TIMEOUT

/-- Claim C4, amended: when the plan interval is positive, the per-step
timeout is `min(max(10 s, 2 * interval), SUBPROCESS_TIMEOUT)` as the claim
states; but when the interval is `0` the code takes the `else` branch
`max(10 s, SUBPROCESS_TIMEOUT)` and the timeout is `SUBPROCESS_TIMEOUT = 60 s`,
not the `10 s` the claim's formula yields. -/
theorem C4_step_timeout_amended (i : ℚ) :
    (0 < i → rampStepTimeout i = min (max 10 (2 * i)) SUBPROCESS_TIMEOUT) ∧
    rampStepTimeout 0 = SUBPROCESS_TIMEOUT := by
  constructor
  · intro hi
    unfold rampStepTimeout perStepTimeout
    rw [if_pos hi, mul_comm]
  · unfold rampStepTimeout perStepTimeout
    rw [if_neg (lt_irrefl (0 : ℚ))]
    rw [max_eq_right (by norm_num [SUBPROCESS_TIMEOUT] : (10 : ℚ) ≤ SUBPROCESS_TIMEOUT),
      min_self]

/-- Witness for the amended C4 at `interval = 1/2 s`. -/
theorem C4_step_timeout_amended_witness :
    (0 : ℚ) < 1 / 2 ∧
    rampStepTimeout (1 / 2) = min (max 10 (2 * (1 / 2))) SUBPROCESS_TIMEOUT :=
  ⟨by norm_num, (C4_step_timeout_amended (1 / 2)).1 (by norm_num)⟩

theorem rampInterval_0_1_0 : rampInterval 0 1 0 = 0 := by
  norm_num [rampInterval, rampInterval0, desiredDurationS]

/-- Counterexample to C4 as stated: a ramp submitted with `duration_ms = 0`
(e.g. `start = 0`, `end = 1`) has plan interval `0`; its steps run with
timeout `60 s` (the global `SUBPROCESS_TIMEOUT`), while the claim's formula
`min(max(10 s, 2 * 0), 60 s)` demands `10 s`. -/
theorem C4_step_timeout_counterexample :
    rampInterval 0 1 0 = 0 ∧
    rampStepTimeout (rampInterval 0 1 0) = 60 ∧
    min (max 10 (2 * rampInterval 0 1 0)) SUBPROCESS_TIMEOUT = 10 ∧
    (60 : ℚ) ≠ 10 := by
  refine ⟨rampInterval_0_1_0, ?_, ?_, by norm_num⟩
  · rw [rampInterval_0_1_0]
    unfold rampStepTimeout perStepTimeout
    rw [if_neg (lt_irrefl (0 : ℚ))]
    rw [max_eq_right (by norm_num [SUBPROCESS_TIMEOUT] : (10 : ℚ) ≤ SUBPROCESS_TIMEOUT),
      min_self]
    norm_num [SUBPROCESS_TIMEOUT]
  · rw [rampInterval_0_1_0, mul_zero]
    rw [max_eq_left (by norm_num : (0 : ℚ) ≤ 10)]
    rw [min_eq_left (by norm_num [SUBPROCESS_TIMEOUT] : (10 : ℚ) ≤ SUBPROCESS_TIMEOUT)]

/-! ### The dispatcher (`run_setcom`) and the invoker (`_start_proc_and_wait`)

The dispatcher is embedded as a pure state-passing function.  The state keeps
the module-level mutables the claims mention (`last_known_voltage`,
whether a ramp thread is alive); the externally visible side effects of one
call (cancelling the ramp, killing the in-flight child, clearing the cancel
event, invoking the device tool, spawning a ramp thread) are recorded in an
action trace in program order.  The environment behaviour of the single
synchronous invocation an instant command performs is an explicit
`ChildOutcome` argument. -/

/-- ASCII model of Python `str.lower()` (Lean's `Char.toLower` agrees with
Python on the ASCII range, the only characters this protocol compares). -/
def lowerStr (s : String) : String := String.mk (s.toList.map Char.toLower)

/-- Model of Python `int(s)` restricted to an optional sign followed by ASCII
digits (the token shapes that can occur here; `split()`-produced tokens
contain no whitespace). -/
def parseIntStr (s : String) : Option ℤ :=
  match s.toList with
  | [] => none
  | c :: rest =>
    if c = '-' then
      if rest ≠ [] ∧ rest.all Char.isDigit then
        some (-(rest.foldl (fun acc ch => acc * 10 + ((ch.toNat - 48 : ℕ) : ℤ)) 0))
      else none
    else if c = '+' then
      if rest ≠ [] ∧ rest.all Char.isDigit then
        some (rest.foldl (fun acc ch => acc * 10 + ((ch.toNat - 48 : ℕ) : ℤ)) 0)
      else none
    else
      if (c :: rest).all Char.isDigit then
        some ((c :: rest).foldl (fun acc ch => acc * 10 + ((ch.toNat - 48 : ℕ) : ℤ)) 0)
      else none

/-- The whitespace class of the regex `\s` (ASCII subset; the device tool
output in scope is ASCII). -/
def isSpaceChar (c : Char) : Bool :=
  c = ' ' || c = '\t' || c = '\n' || c = '\r' || c = '\x0b' || c = '\x0c'

/-- Completing the match of `_vol_regex = r"volt\s*[:=]?\s*(-?\d+)"` after a
case-insensitive `volt`: skip whitespace, an optional single `:` or `=`, more
whitespace, then capture `-?\d+`. -/
def voltAfter (cs : List Char) : Option ℤ :=
  match (match (cs.dropWhile fun c => isSpaceChar c) with
         | c :: rest => if c = ':' ∨ c = '=' then rest
                        else c :: rest
         | [] => []).dropWhile (fun c => isSpaceChar c) with
  | '-' :: rest =>
      if (rest.takeWhile Char.isDigit) = [] then none
      else some (-((rest.takeWhile Char.isDigit).foldl
        (fun acc ch => acc * 10 + ((ch.toNat - 48 : ℕ) : ℤ)) 0))
  | cs3 =>
      if (cs3.takeWhile Char.isDigit) = [] then none
      else some ((cs3.takeWhile Char.isDigit).foldl
        (fun acc ch => acc * 10 + ((ch.toNat - 48 : ℕ) : ℤ)) 0)

/-- Does the text start with a case-insensitive `volt`?  If so return the
remaining characters. -/
def voltCIPrefix : List Char → Option (List Char)
  | v :: o :: l :: t :: rest =>
    if v.toLower = 'v' ∧ o.toLower = 'o' ∧ l.toLower = 'l' ∧ t.toLower = 't'
    then some rest else none
  | _ => none

/-- Model of `_vol_regex.search(txt)` + `int(m.group(1))`: scan left to right
for the first position where the whole pattern matches (a regex search
advances one character when a candidate position fails). -/
def volParse : List Char → Option ℤ
  | [] => none
  | c :: rest =>
    match voltCIPrefix (c :: rest) with
    | some tail =>
      match voltAfter tail with
      | some v => some v
      | none => volParse rest
    | none => volParse rest

/-- Environment outcome of one attempted device-tool invocation. -/
inductive ChildOutcome where
  | noExec : ChildOutcome
  | spawnFail : String → ChildOutcome
  | timedOut : String → String → ChildOutcome
  | completed : ℤ → String → String → ChildOutcome
deriving DecidableEq

/-- The `(rc, stdout, stderr)` triple returned by the invoker/dispatcher. -/
structure ProcResult where
  rc : ℤ
  out : String
  err : String
deriving DecidableEq

/-- Module-level mutable state of the server relevant to the claims. -/
structure ServerState where
  lastKnownVoltage : Option ℤ
  rampAlive : Bool
deriving DecidableEq

/-- Externally visible actions of one `run_setcom` call, in program order. -/
inductive Act where
  | cancelRamp : Act
  | killActive : Act
  | clearCancel : Act
  | invoke : List String → ℚ → Act
  | startRamp : String → String → ℤ → ℤ → ℤ → ℤ → Act
deriving DecidableEq

/-- Is the action a device-tool invocation? -/
def isInvoke : Act → Bool
  | .invoke _ _ => true
  | _ => false

/-- The optimistic pre-update of `last_known_voltage` performed by
`_start_proc_and_wait` before `Popen` when `cmd_tokens[2]` parses as an
integer (lines 289-297). -/
def preUpdate (cmdTokens : List String) (lk : Option ℤ) : Option ℤ :=
  if 3 ≤ cmdTokens.length then
    match parseIntStr (cmdTokens.getD 2 "") with
    | some v => some v
    | none => lk
  else lk

/-- Embedding of `_start_proc_and_wait(cmd_tokens, timeout)` as a function of
the environment outcome: returns the result triple and the new
`last_known_voltage`.  Order as in the source: the `EXEC_PATH`-missing early
return (rc 252) happens *before* the optimistic pre-update; the pre-update
happens before `Popen` (so it also survives a spawn failure, rc 254, and a
timeout, rc 253); the `volt` parse of stdout+stderr happens only after a
completed wait. -/
def startProcAndWait (cmdTokens : List String) (outcome : ChildOutcome)
    (lk : Option ℤ) : ProcResult × Option ℤ :=
  match outcome with
  | .noExec => (⟨252, "", "EXEC_PATH not found/resolved"⟩, lk)
  | .spawnFail msg => (⟨254, "", msg⟩, preUpdate cmdTokens lk)
  | .timedOut out err => (⟨253, out, err⟩, preUpdate cmdTokens lk)
  | .completed rc out err =>
    match volParse (out ++ "\n" ++ err).toList with
    | some v => (⟨rc, out, err⟩, some v)
    | none => (⟨rc, out, err⟩, preUpdate cmdTokens lk)

/-- The preemption-barrier actions of `run_setcom` (the `with ramp_lock:`
block, lines 553-578): if a ramp thread is alive, signal cancel and kill the
active child (the bounded wait loop is abstracted to its externally visible
kill), then unconditionally clear the cancel event and kill any straggling
child. -/
def barrierTrace (rampAlive : Bool) : List Act :=
  (if rampAlive then [Act.cancelRamp, Act.killActive] else [])
    ++ [Act.clearCancel, Act.killActive]

/-- Embedding of `run_setcom(tokens)`: result triple, new state, and action
trace in program order.  The source validates the token count (rc 252) and
the `com3 1` header (rc 253) *before* the preemption barrier; the integer
parses happen after it (rc 254 on failure).  An instant command pre-commits
the parsed voltage to `last_known_voltage` and invokes synchronously; a ramp
command clears the cancel event, spawns the ramp thread and returns rc 0
immediately. -/
def runSetcom (tokens : List String) (outcome : ChildOutcome)
    (st : ServerState) : ProcResult × ServerState × List Act :=
  if ¬(tokens.length = 3 ∨ tokens.length = 4) then
    (⟨252, "", "Invalid command format: expected 3 tokens (instant) or 4 tokens (ramp)"⟩,
      st, [])
  else if ¬(lowerStr (tokens.getD 0 "") = "com3" ∧ tokens.getD 1 "" = "1") then
    (⟨253, "", "Invalid command prefix: expected first two tokens com3 1"⟩, st, [])
  else if tokens.length = 3 then
    match parseIntStr (tokens.getD 2 "") with
    | none =>
      (⟨254, "", "Invalid voltage value"⟩, ⟨st.lastKnownVoltage, false⟩,
        barrierTrace st.rampAlive)
    | some v =>
      ((startProcAndWait tokens outcome (some v)).1,
        ⟨(startProcAndWait tokens outcome (some v)).2, false⟩,
        barrierTrace st.rampAlive ++ [Act.invoke tokens SUBPROCESS_TIMEOUT])
  else
    match parseIntStr (tokens.getD 2 ""), parseIntStr (tokens.getD 3 "") with
    | some endV, some durMs =>
      (⟨0, "ramp started -1->" ++ toString endV ++ " dur=" ++ toString durMs
          ++ " offset=0", ""⟩,
        ⟨st.lastKnownVoltage, true⟩,
        barrierTrace st.rampAlive ++ [Act.clearCancel,
          Act.startRamp (tokens.getD 0 "") (tokens.getD 1 "") (-1) endV durMs 0])
    | _, _ =>
      (⟨254, "", "Invalid ramp arguments: end_voltage and duration_ms must be integers"⟩,
        ⟨st.lastKnownVoltage, false⟩, barrierTrace st.rampAlive)

/-- Claim C1, amended: `run_setcom` validates the token count and the
`com3 1` header *before* the preemption barrier, so a submit rejected for
wrong token count (rc 252) or bad header (rc 253) performs no preemption at
all and leaves the state untouched; every submit that passes those two checks
performs the full preemption barrier first (even when it is later rejected
with rc 254 for a non-integer argument). -/
theorem C1_preemption_amended (tokens : List String) (outcome : ChildOutcome)
    (st : ServerState) :
    (¬((tokens.length = 3 ∨ tokens.length = 4) ∧
        lowerStr (tokens.getD 0 "") = "com3" ∧ tokens.getD 1 "" = "1") →
      (runSetcom tokens outcome st).2.2 = [] ∧
      (runSetcom tokens outcome st).2.1 = st ∧
      ((runSetcom tokens outcome st).1.rc = 252 ∨
        (runSetcom tokens outcome st).1.rc = 253)) ∧
    (((tokens.length = 3 ∨ tokens.length = 4) ∧
        lowerStr (tokens.getD 0 "") = "com3" ∧ tokens.getD 1 "" = "1") →
      ∃ rest : List Act,
        (runSetcom tokens outcome st).2.2 = barrierTrace st.rampAlive ++ rest) := by
  constructor
  · intro hbad
    unfold runSetcom
    by_cases h1 : tokens.length = 3 ∨ tokens.length = 4
    · have h2 : ¬(lowerStr (tokens.getD 0 "") = "com3" ∧ tokens.getD 1 "" = "1") :=
        fun hc => hbad ⟨h1, hc⟩
      rw [if_neg (not_not_intro h1), if_pos h2]
      exact ⟨rfl, rfl, Or.inr rfl⟩
    · rw [if_pos h1]
      exact ⟨rfl, rfl, Or.inl rfl⟩
  · rintro ⟨h1, h2⟩
    unfold runSetcom
    rw [if_neg (not_not_intro h1), if_neg (not_not_intro h2)]
    by_cases h3 : tokens.length = 3
    · rw [if_pos h3]
      cases hp : parseIntStr (tokens.getD 2 "") with
      | none => exact ⟨[], (List.append_nil _).symm⟩
      | some v => exact ⟨[Act.invoke tokens SUBPROCESS_TIMEOUT], rfl⟩
    · rw [if_neg h3]
      cases hp1 : parseIntStr (tokens.getD 2 "") with
      | none => exact ⟨[], (List.append_nil _).symm⟩
      | some endV =>
        cases hp2 : parseIntStr (tokens.getD 3 "") with
        | none => exact ⟨[], (List.append_nil _).symm⟩
        | some durMs =>
          exact ⟨[Act.clearCancel,
            Act.startRamp (tokens.getD 0 "") (tokens.getD 1 "") (-1) endV durMs 0], rfl⟩

/-- Witness for the amended C1: the bad-header submit `com4 1 1500` with a
live ramp performs no preemption; the instant submit `com3 1 7` performs the
barrier first. -/
theorem C1_preemption_amended_witness :
    (¬((["com4", "1", "1500"].length = 3 ∨ ["com4", "1", "1500"].length = 4) ∧
        lowerStr (["com4", "1", "1500"].getD 0 "") = "com3" ∧
        ["com4", "1", "1500"].getD 1 "" = "1") ∧
      (runSetcom ["com4", "1", "1500"] (.completed 0 "" "") ⟨none, true⟩).2.2 = [] ∧
      (runSetcom ["com4", "1", "1500"] (.completed 0 "" "") ⟨none, true⟩).2.1
        = ⟨none, true⟩ ∧
      ((runSetcom ["com4", "1", "1500"] (.completed 0 "" "") ⟨none, true⟩).1.rc = 252 ∨
        (runSetcom ["com4", "1", "1500"] (.completed 0 "" "") ⟨none, true⟩).1.rc = 253)) ∧
    (∃ rest : List Act,
      (runSetcom ["com3", "1", "7"] (.completed 0 "" "") ⟨none, true⟩).2.2
        = barrierTrace true ++ rest) :=
  ⟨⟨by decide,
      (C1_preemption_amended ["com4", "1", "1500"] (.completed 0 "" "")
        ⟨none, true⟩).1 (by decide)⟩,
    (C1_preemption_amended ["com3", "1", "7"] (.completed 0 "" "") ⟨none, true⟩).2
      (by decide)⟩

/-- Counterexample to C1 as stated: a submit rejected for wrong token count
(here the 2-token line `com3 1`) with a live ramp session performs no
preemption whatsoever: run_setcom returns rc 252 with an empty action trace
(no cancel signalled, no kill issued) and the ramp is still alive — the
validation, not the barrier, comes first. -/
theorem C1_preemption_counterexample :
    (runSetcom ["com3", "1"] (.completed 0 "" "") ⟨none, true⟩).1.rc = 252 ∧
    (runSetcom ["com3", "1"] (.completed 0 "" "") ⟨none, true⟩).2.2 = [] ∧
    (runSetcom ["com3", "1"] (.completed 0 "" "") ⟨none, true⟩).2.1.rampAlive = true ∧
    Act.cancelRamp ∉ (runSetcom ["com3", "1"] (.completed 0 "" "") ⟨none, true⟩).2.2 ∧
    Act.killActive ∉ (runSetcom ["com3", "1"] (.completed 0 "" "") ⟨none, true⟩).2.2 := by
  refine ⟨rfl, rfl, rfl, by decide, by decide⟩

/-- Claim C2, amended: on the instant path `run_setcom` commits the parsed
voltage to `last_known_voltage` optimistically, before and independently of
the invocation outcome; the final committed value is the value parsed from
the tool output when the wait completed and the output contains a `volt`
line, and the requested voltage itself in every other case — including all
failure modes (tool missing, spawn failure, timeout, nonzero exit with no
`volt` in the output). -/
theorem C2_voltage_state_amended (tokens : List String) (outcome : ChildOutcome)
    (st : ServerState) (v : ℤ)
    (h3 : tokens.length = 3)
    (hhdr : lowerStr (tokens.getD 0 "") = "com3" ∧ tokens.getD 1 "" = "1")
    (hv : parseIntStr (tokens.getD 2 "") = some v) :
    (runSetcom tokens outcome st).2.1.lastKnownVoltage =
      match outcome with
      | .completed _ out err =>
        match volParse (out ++ "\n" ++ err).toList with
        | some p => some p
        | none => some v
      | _ => some v := by
  unfold runSetcom
  rw [if_neg (not_not_intro (Or.inl h3)), if_neg (not_not_intro hhdr), if_pos h3, hv]
  have hpre : preUpdate tokens (some v) = some v := by
    unfold preUpdate
    rw [if_pos (by omega), hv]
  cases outcome with
  | noExec => rfl
  | spawnFail msg =>
    show preUpdate tokens (some v) = some v
    exact hpre
  | timedOut out err =>
    show preUpdate tokens (some v) = some v
    exact hpre
  | completed rc out err =>
    show (match volParse (out ++ "\n" ++ err).toList with
        | some p => (⟨⟨rc, out, err⟩, some p⟩ : ProcResult × Option ℤ)
        | none => (⟨⟨rc, out, err⟩, preUpdate tokens (some v)⟩ : ProcResult × Option ℤ)).2
      = match volParse (out ++ "\n" ++ err).toList with
        | some p => some p
        | none => some v
    cases hvp : volParse (out ++ "\n" ++ err).toList with
    | some p => rfl
    | none => exact hpre

/-- Witness for the amended C2: instant submit `com3 1 42` whose child exits
nonzero with no `volt` output leaves `last_known_voltage = 42`. -/
theorem C2_voltage_state_amended_witness :
    ["com3", "1", "42"].length = 3 ∧
    (lowerStr (["com3", "1", "42"].getD 0 "") = "com3" ∧
      ["com3", "1", "42"].getD 1 "" = "1") ∧
    parseIntStr (["com3", "1", "42"].getD 2 "") = some 42 ∧
    (runSetcom ["com3", "1", "42"] (.completed 1 "Access Denied" "") ⟨none, false⟩).2.1.lastKnownVoltage
      = some 42 := by
  refine ⟨by decide, by decide, by decide, ?_⟩
  have h := C2_voltage_state_amended ["com3", "1", "42"]
    (.completed 1 "Access Denied" "") ⟨none, false⟩ 42 (by decide) (by decide) (by decide)
  rw [h]
  decide

/-- Counterexample to C2 as stated: the instant submit `com3 1 42` whose
invocation fails to spawn (rc 254, no output at all) still leaves
`last_known_voltage` holding the requested voltage 42, although the device
was never successfully instructed and nothing was parsed from any output. -/
theorem C2_voltage_state_counterexample :
    (runSetcom ["com3", "1", "42"] (.spawnFail "spawn error") ⟨none, false⟩).1.rc = 254 ∧
    (runSetcom ["com3", "1", "42"] (.spawnFail "spawn error") ⟨none, false⟩).2.1.lastKnownVoltage
      = some 42 := by
  exact ⟨rfl, rfl⟩

/-! ### The durable outbound queue and the HTTP `/send` handler -/

/-- A row of the SQLite `queue` table. -/
structure QueueRow where
  id : ℕ
  cmd : String
  createdAt : ℕ
  sentAt : Option ℕ
deriving DecidableEq

/-- The next AUTOINCREMENT row id (one more than the largest id in use). -/
def nextId (q : List QueueRow) : ℕ := (q.map QueueRow.id).foldr max 0 + 1

/-- `INSERT INTO queue (cmd, created_at) VALUES (?, ?)` followed by
`lastrowid`: the table with the new unsent row appended, and the new id. -/
def enqueue (q : List QueueRow) (cmd : String) (ts : ℕ) :
    List QueueRow × ℕ :=
  (q ++ [⟨nextId q, cmd, ts, none⟩], nextId q)

/-- `UPDATE queue SET sent_at = ? WHERE id = ?`. -/
def markSent (q : List QueueRow) (rid : ℕ) (ts : ℕ) : List QueueRow :=
  q.map fun r => if r.id = rid then { r with sentAt := some ts } else r

/-- Result of one `POST /send` request. -/
structure PostResult where
  ok : Bool
  rowId : ℕ
  rc : ℤ
  queue : List QueueRow
  state : ServerState
  trace : List Act
deriving DecidableEq

/-- Model of Python `str.split()` with no argument: split on whitespace runs,
discarding empty pieces. -/
def splitWSAux : List Char → List Char → List String
  | acc, [] => if acc = [] then [] else [String.mk acc.reverse]
  | acc, c :: rest =>
    if c.isWhitespace then
      if acc = [] then splitWSAux [] rest
      else String.mk acc.reverse :: splitWSAux [] rest
    else splitWSAux (c :: acc) rest

/-- `cmd.split()`. -/
def pySplit (s : String) : List String := splitWSAux [] s.toList

/-- Embedding of `ControlHandler.do_POST` on `/send` after JSON decoding
succeeded with a command string `cmd`: `row_id = db.enqueue(cmd)`;
`rc, out, err = run_setcom(cmd.split())`; on `rc == 0` the row is marked
sent and the reply is ok, otherwise the row is left unsent. -/
def doPost (q : List QueueRow) (st : ServerState) (cmd : String)
    (outcome : ChildOutcome) (ts : ℕ) : PostResult :=
  if (runSetcom (pySplit cmd) outcome st).1.rc = 0 then
    ⟨true, (enqueue q cmd ts).2, (runSetcom (pySplit cmd) outcome st).1.rc,
      markSent (enqueue q cmd ts).1 (enqueue q cmd ts).2 ts,
      (runSetcom (pySplit cmd) outcome st).2.1,
      (runSetcom (pySplit cmd) outcome st).2.2⟩
  else
    ⟨false, (enqueue q cmd ts).2, (runSetcom (pySplit cmd) outcome st).1.rc,
      (enqueue q cmd ts).1,
      (runSetcom (pySplit cmd) outcome st).2.1,
      (runSetcom (pySplit cmd) outcome st).2.2⟩

theorem runSetcom_ramp_rc_zero (tokens : List String) (outcome : ChildOutcome)
    (st : ServerState) (endV durMs : ℤ)
    (hlen : tokens.length = 4)
    (hhdr : lowerStr (tokens.getD 0 "") = "com3" ∧ tokens.getD 1 "" = "1")
    (hend : parseIntStr (tokens.getD 2 "") = some endV)
    (hdur : parseIntStr (tokens.getD 3 "") = some durMs) :
    (runSetcom tokens outcome st).1.rc = 0 ∧
    (runSetcom tokens outcome st).2.2
      = barrierTrace st.rampAlive ++ [Act.clearCancel,
          Act.startRamp (tokens.getD 0 "") (tokens.getD 1 "") (-1) endV durMs 0] ∧
    (runSetcom tokens outcome st).2.1.rampAlive = true := by
  have h3 : ¬tokens.length = 3 := by omega
  unfold runSetcom
  rw [if_neg (not_not_intro (Or.inr hlen)), if_neg (not_not_intro hhdr),
    if_neg h3, hend, hdur]
  exact ⟨rfl, rfl, rfl⟩

/-- Claim C10: for every valid 4-token ramp command POSTed to `/send`,
`run_setcom` returns rc 0 having performed no device invocation (the only
actions besides the barrier are clearing the cancel event and spawning the
ramp thread), the handler replies ok and marks the fresh row sent — and a
row once marked sent can never become unsent again under the queue's only
operations (`enqueue` and `markSent`). -/
theorem C10_ramp_marked_sent (q : List QueueRow) (st : ServerState)
    (cmd : String) (outcome : ChildOutcome) (ts : ℕ) (endV durMs : ℤ)
    (hlen : (pySplit cmd).length = 4)
    (hhdr : lowerStr ((pySplit cmd).getD 0 "") = "com3" ∧
      (pySplit cmd).getD 1 "" = "1")
    (hend : parseIntStr ((pySplit cmd).getD 2 "") = some endV)
    (hdur : parseIntStr ((pySplit cmd).getD 3 "") = some durMs) :
    (runSetcom (pySplit cmd) outcome st).1.rc = 0 ∧
    ((runSetcom (pySplit cmd) outcome st).2.2.all fun a => !isInvoke a) = true ∧
    (doPost q st cmd outcome ts).ok = true ∧
    (∀ r ∈ (doPost q st cmd outcome ts).queue,
      r.id = (doPost q st cmd outcome ts).rowId → r.sentAt ≠ none) ∧
    (∀ (q' : List QueueRow) (r : QueueRow), r ∈ q' → r.sentAt ≠ none →
      (∀ rid ts', ∃ r' ∈ markSent q' rid ts', r'.id = r.id ∧ r'.sentAt ≠ none) ∧
      (∀ c ts', r ∈ (enqueue q' c ts').1)) := by
  obtain ⟨hrc, htr, -⟩ :=
    runSetcom_ramp_rc_zero (pySplit cmd) outcome st endV durMs hlen hhdr hend hdur
  refine ⟨hrc, ?_, ?_, ?_, ?_⟩
  · rw [htr]
    cases st.rampAlive <;> rfl
  · unfold doPost
    rw [if_pos hrc]
  · unfold doPost
    rw [if_pos hrc]
    intro r hr hid
    simp only [markSent, List.mem_map] at hr
    obtain ⟨x, hx, hfx⟩ := hr
    by_cases hxid : x.id = (enqueue q cmd ts).2
    · rw [if_pos hxid] at hfx
      rw [← hfx]
      simp
    · rw [if_neg hxid] at hfx
      rw [← hfx] at hid
      exact absurd hid hxid
  · intro q' r hr hsent
    constructor
    · intro rid ts'
      by_cases hrid : r.id = rid
      · refine ⟨{ r with sentAt := some ts' }, ?_, rfl, by simp⟩
        simp only [markSent, List.mem_map]
        exact ⟨r, hr, by rw [if_pos hrid]⟩
      · refine ⟨r, ?_, rfl, hsent⟩
        simp only [markSent, List.mem_map]
        exact ⟨r, hr, by rw [if_neg hrid]⟩
    · intro c ts'
      unfold enqueue
      exact List.mem_append_left _ hr

/-- Witness for C10: `POST /send {"cmd": "com3 1 100 5000"}` against an idle
server with an empty queue. -/
theorem C10_ramp_marked_sent_witness :
    (pySplit "com3 1 100 5000").length = 4 ∧
    (runSetcom (pySplit "com3 1 100 5000") (.noExec) ⟨none, false⟩).1.rc = 0 ∧
    (doPost [] ⟨none, false⟩ "com3 1 100 5000" (.noExec) 5).ok = true ∧
    (∀ r ∈ (doPost [] ⟨none, false⟩ "com3 1 100 5000" (.noExec) 5).queue,
      r.id = (doPost [] ⟨none, false⟩ "com3 1 100 5000" (.noExec) 5).rowId →
        r.sentAt ≠ none) := by
  have h := C10_ramp_marked_sent [] ⟨none, false⟩ "com3 1 100 5000" (.noExec) 5
    100 5000 (by decide) (by decide) (by decide) (by decide)
  exact ⟨by decide, h.1, h.2.2.1, h.2.2.2.1⟩

/-! ### TCP line framing (`handle_client`, lines 633-639)

    while b'\r' in buf or b'\n' in buf:
        if b'\r' in buf:
            line, _, buf = buf.partition(b'\r')
        else:
            line, _, buf = buf.partition(b'\n')
        text = line.decode('utf-8', errors='ignore').strip()

Bytes are modelled as natural numbers (`13` = CR, `10` = LF). -/

/-- Python `buf.partition(sep)` restricted to the two components the source
uses: split at the *first* occurrence of `sep`, consuming it; when `sep` is
absent the whole input is the before-part (the loop guard rules this out for
the call sites). -/
def bPartition (sep : ℕ) : List ℕ → List ℕ × List ℕ
  | [] => ([], [])
  | c :: rest =>
    if c = sep then ([], rest)
    else (c :: (bPartition sep rest).1, (bPartition sep rest).2)

/-- One framing step of the receive loop: if the buffer contains CR or LF,
partition on CR whenever any CR is present, otherwise on LF. -/
def recvStep (buf : List ℕ) : Option (List ℕ × List ℕ) :=
  if 13 ∈ buf ∨ 10 ∈ buf then
    some (if 13 ∈ buf then bPartition 13 buf else bPartition 10 buf)
  else none

/-- Worker for `decodeUtf8Ignore`, structurally recursive on a fuel argument;
every step consumes at least one byte, so fuel `= length` is enough. -/
def decodeUtf8IgnoreAux : ℕ → List ℕ → List ℕ
  | 0, _ => []
  | _ + 1, [] => []
  | fuel + 1, b :: rest =>
    if b < 128 then b :: decodeUtf8IgnoreAux fuel rest
    else if b < 194 then decodeUtf8IgnoreAux fuel rest
    else if b ≤ 223 then
      match rest with
      | [] => []
      | c :: rest2 =>
        if 128 ≤ c ∧ c ≤ 191 then
          ((b - 192) * 64 + (c - 128)) :: decodeUtf8IgnoreAux fuel rest2
        else decodeUtf8IgnoreAux fuel rest
    else if b ≤ 239 then
      match rest with
      | [] => []
      | c :: rest2 =>
        if (if b = 224 then 160 ≤ c ∧ c ≤ 191
            else if b = 237 then 128 ≤ c ∧ c ≤ 159
            else 128 ≤ c ∧ c ≤ 191) then
          match rest2 with
          | [] => []
          | c2 :: rest3 =>
            if 128 ≤ c2 ∧ c2 ≤ 191 then
              ((b - 224) * 4096 + (c - 128) * 64 + (c2 - 128)) :: decodeUtf8IgnoreAux fuel rest3
            else decodeUtf8IgnoreAux fuel rest2
        else decodeUtf8IgnoreAux fuel rest
    else if b ≤ 244 then
      match rest with
      | [] => []
      | c :: rest2 =>
        if (if b = 240 then 144 ≤ c ∧ c ≤ 191
            else if b = 244 then 128 ≤ c ∧ c ≤ 143
            else 128 ≤ c ∧ c ≤ 191) then
          match rest2 with
          | [] => []
          | c2 :: rest3 =>
            if 128 ≤ c2 ∧ c2 ≤ 191 then
              match rest3 with
              | [] => []
              | c3 :: rest4 =>
                if 128 ≤ c3 ∧ c3 ≤ 191 then
                  ((b - 240) * 262144 + (c - 128) * 4096 + (c2 - 128) * 64 + (c3 - 128))
                    :: decodeUtf8IgnoreAux fuel rest4
                else decodeUtf8IgnoreAux fuel rest3
            else decodeUtf8IgnoreAux fuel rest2
        else decodeUtf8IgnoreAux fuel rest
    else decodeUtf8IgnoreAux fuel rest


/-- Model of CPython `bytes.decode('utf-8', errors='ignore')`: standard UTF-8
decoding where every maximal invalid subpart (stray continuation byte,
overlong / surrogate / out-of-range prefix, wrong or missing continuation) is
skipped without producing anything.  Returns the decoded code points. -/
def decodeUtf8Ignore (l : List ℕ) : List ℕ := decodeUtf8IgnoreAux l.length l

/-- The decoded code points of the line split off by one framing step
(`line.decode('utf-8', errors='ignore')`; the trailing `.strip()` is outside
the claim). -/
def recvLineCodepoints (buf : List ℕ) : Option (List ℕ) :=
  (recvStep buf).map fun p => decodeUtf8Ignore p.1

/-- `partition` splits exactly at the first occurrence of the separator. -/
theorem bPartition_eq (sep : ℕ) (l : List ℕ) :
    bPartition sep l = (l.takeWhile (fun c => c ≠ sep),
      ((l.dropWhile fun c => c ≠ sep).tail)) := by
  induction l with
  | nil => rfl
  | cons c rest ih =>
    by_cases h : c = sep
    · subst h
      simp [bPartition, List.takeWhile_cons, List.dropWhile_cons]
    · simp [bPartition, List.takeWhile_cons, List.dropWhile_cons, h, ih]

/-- Claim C5, amended: when the buffer contains CR or LF, the reader ends the
line at the first CR whenever a CR is present *anywhere* in the buffer
(even when an LF occurs earlier), and only otherwise at the first LF; the
separator is consumed, and the line is decoded as UTF-8 with invalid
sequences *dropped* (`errors='ignore'`), not replaced. -/
theorem C5_framing_amended (buf : List ℕ) :
    (13 ∈ buf →
      recvStep buf = some (buf.takeWhile (fun c => c ≠ 13),
        ((buf.dropWhile fun c => c ≠ 13).tail)) ∧
      recvLineCodepoints buf
        = some (decodeUtf8Ignore (buf.takeWhile fun c => c ≠ 13))) ∧
    (13 ∉ buf → 10 ∈ buf →
      recvStep buf = some (buf.takeWhile (fun c => c ≠ 10),
        ((buf.dropWhile fun c => c ≠ 10).tail)) ∧
      recvLineCodepoints buf
        = some (decodeUtf8Ignore (buf.takeWhile fun c => c ≠ 10))) ∧
    (13 ∉ buf → 10 ∉ buf → recvStep buf = none) := by
  refine ⟨?_, ?_, ?_⟩
  · intro h13
    have hstep : recvStep buf = some (bPartition 13 buf) := by
      unfold recvStep
      rw [if_pos (Or.inl h13), if_pos h13]
    rw [hstep, bPartition_eq]
    exact ⟨rfl, by unfold recvLineCodepoints; rw [hstep, bPartition_eq]; rfl⟩
  · intro h13 h10
    have hstep : recvStep buf = some (bPartition 10 buf) := by
      unfold recvStep
      rw [if_pos (Or.inr h10), if_neg h13]
    rw [hstep, bPartition_eq]
    exact ⟨rfl, by unfold recvLineCodepoints; rw [hstep, bPartition_eq]; rfl⟩
  · intro h13 h10
    unfold recvStep
    rw [if_neg (by simp [h13, h10])]

/-- Witness for the amended C5 on the buffer `b"com3 1 7\r\nrest"`. -/
theorem C5_framing_amended_witness :
    (13 : ℕ) ∈ [99, 111, 109, 51, 32, 49, 32, 55, 13, 10, 114] ∧
    recvStep [99, 111, 109, 51, 32, 49, 32, 55, 13, 10, 114]
      = some ([99, 111, 109, 51, 32, 49, 32, 55]
          , [10, 114]) ∧
    recvLineCodepoints [99, 111, 109, 51, 32, 49, 32, 55, 13, 10, 114]
      = some (decodeUtf8Ignore [99, 111, 109, 51, 32, 49, 32, 55]) := by
  have h13 : (13 : ℕ) ∈ [99, 111, 109, 51, 32, 49, 32, 55, 13, 10, 114] := by decide
  have h := (C5_framing_amended [99, 111, 109, 51, 32, 49, 32, 55, 13, 10, 114]).1 h13
  refine ⟨h13, ?_, ?_⟩
  · rw [h.1]
    decide
  · rw [h.2]
    decide

/-- Counterexample to C5 as stated: in the buffer `b"a\nb\rc"` the first
separator is the LF at index 1, yet the code partitions on the *later* CR and
yields the line `b"a\nb"`, not `b"a"`; and decoding uses `errors='ignore'`,
which *drops* an invalid byte (0xFF) instead of replacing it with U+FFFD. -/
theorem C5_framing_counterexample :
    recvStep [97, 10, 98, 13, 99] = some ([97, 10, 98], [99]) ∧
    [97, 10, 98, 13, 99].takeWhile (fun c => c ≠ 13 ∧ c ≠ 10) = [97] ∧
    ([97, 10, 98] : List ℕ) ≠ [97] ∧
    decodeUtf8Ignore [99, 255, 100] = [99, 100] ∧
    decodeUtf8Ignore [99, 255, 100] ≠ [99, 65533, 100] := by
  refine ⟨by decide, by decide, by decide, by decide, by decide⟩

end SetcomServer
